import Mathlib

/-!
Shallow embedding of the appointment-bot booking core (src/utils.py,
src/appointment_service.py, src/config_manager.py).

HTTP calls, the Telegram channel and the wall clock are modelled as an
explicit oracle environment; every function below is translated from the
Python source, with machine randomness (random.choice, random.uniform)
represented as oracle streams and Python exceptions as Except/Option
values.  Dates are the `YYYY-MM-DD` strings the remote API exchanges;
where the source does calendar arithmetic (datetime + timedelta) we use a
proleptic Gregorian day-successor function.
-/

namespace AppointmentBot

/-! ## Calendar model (datetime / timedelta as used by find_dates_from_date) -/

/-- A calendar date, mirroring the `datetime` values the source builds with
`strptime(_, "%Y-%m-%d")`. -/
structure Date where
  year : Nat
  month : Nat
  day : Nat
deriving DecidableEq

/-- Gregorian leap-year rule, as implemented by Python's `datetime`. -/
def isLeapYear (y : Nat) : Bool :=
  y % 4 == 0 && (y % 100 != 0 || y % 400 == 0)

/-- Number of days in a month of a given year. -/
def daysInMonth (y m : Nat) : Nat :=
  if m = 2 then (if isLeapYear y then 29 else 28)
  else if m = 4 ∨ m = 6 ∨ m = 9 ∨ m = 11 then 30
  else 31

/-- The day after a date (`+ timedelta(days=1)`). -/
def nextDay (d : Date) : Date :=
  if d.day < daysInMonth d.year d.month then ⟨d.year, d.month, d.day + 1⟩
  else if d.month < 12 then ⟨d.year, d.month + 1, 1⟩
  else ⟨d.year + 1, 1, 1⟩

/-- `d + timedelta(days=n)`. -/
def addDays (d : Date) : Nat → Date
  | 0 => d
  | n + 1 => addDays (nextDay d) n

/-- Strict order on dates (how Python compares `datetime` values at day
granularity). -/
def dateLtB (a b : Date) : Bool :=
  if a.year < b.year then true
  else if b.year < a.year then false
  else if a.month < b.month then true
  else if b.month < a.month then false
  else decide (a.day < b.day)

/-- Python's `max(a, b)` on two datetimes: the second argument wins only when
it is strictly larger. -/
def dateMax (a b : Date) : Date :=
  if dateLtB a b then b else a

/-- Decimal digit character. -/
def digitChar (n : Nat) : Char :=
  Char.ofNat (48 + n)

/-- Two-digit zero-padded numeral (`%m`, `%d`). -/
def pad2 (n : Nat) : String :=
  ⟨[digitChar (n / 10 % 10), digitChar (n % 10)]⟩

/-- Four-digit zero-padded numeral (`%Y`, for the years datetime supports). -/
def pad4 (n : Nat) : String :=
  ⟨[digitChar (n / 1000 % 10), digitChar (n / 100 % 10),
    digitChar (n / 10 % 10), digitChar (n % 10)]⟩

/-- `strftime("%Y-%m-%d")`. -/
def isoOfDate (d : Date) : String :=
  pad4 d.year ++ "-" ++ pad2 d.month ++ "-" ++ pad2 d.day

/-- Value of a decimal digit character, if it is one. -/
def digitVal (c : Char) : Option Nat :=
  if '0' ≤ c ∧ c ≤ '9' then some (c.toNat - 48) else none

/-- `strptime(s, "%Y-%m-%d")` on zero-padded input: `none` models the
`ValueError` path (caught by the source, which then returns `[]`).
Month and day-of-month are validated against the calendar, as `datetime`
does. -/
def parseDate (s : String) : Option Date :=
  match s.data with
  | [y3, y2, y1, y0, s1, m1, m0, s2, d1, d0] =>
    if s1 = '-' ∧ s2 = '-' then
      match digitVal y3, digitVal y2, digitVal y1, digitVal y0,
            digitVal m1, digitVal m0, digitVal d1, digitVal d0 with
      | some a, some b, some c, some d, some e, some f, some g, some h =>
        let y := 1000 * a + 100 * b + 10 * c + d
        let mo := 10 * e + f
        let da := 10 * g + h
        if 1 ≤ y ∧ 1 ≤ mo ∧ mo ≤ 12 ∧ 1 ≤ da ∧ da ≤ daysInMonth y mo then
          some ⟨y, mo, da⟩
        else none
      | _, _, _, _, _, _, _, _ => none
    else none
  | _ => none

/-! ## Python string comparison

Python compares strings lexicographically by code point; the booking code
relies on this for its ISO-date watermark tests.  The standard `String`
order in Lean is the same relation, but its `ltb` implementation does not
reduce in the kernel, so we model the comparison structurally on the
character list and prove it equivalent to the standard order. -/

/-- Lexicographic strict comparison of char lists by code point. -/
def strLtL : List Char → List Char → Bool
  | [], [] => false
  | [], _ :: _ => true
  | _ :: _, [] => false
  | a :: as, b :: bs =>
    if a < b then true
    else if b < a then false
    else strLtL as bs

/-- Python `s < t` on strings. -/
def strLt (s t : String) : Bool :=
  strLtL s.data t.data

/-- Python `s <= t` on strings (total order, so `¬ t < s`). -/
def strLe (s t : String) : Bool :=
  !(strLt t s)

/-! ## utils.py: date filtering -/

/-- One record of the remote `dates` endpoint response; the source reads only
its `"date"` field. -/
structure DateRec where
  date : String
deriving DecidableEq

/-- The filter predicate of `find_next_dates`: `not last_date or
d["date"] > last_date`, with Python truthiness (both `None` and the empty
string are falsy). -/
def keep_date (last_date : Option String) (d : String) : Bool :=
  match last_date with
  | none => true
  | some w => if w = "" then true else strLt w d

/-- `utils.find_next_dates`: incremental date filtering against the
watermark. -/
def find_next_dates (dates : List DateRec) (last_date : Option String) : List String :=
  (dates.filter (fun r => keep_date last_date r.date)).map DateRec.date

/-- `utils.find_dates_from_date`: windowed (reset-cycle) date filtering.
`today` stands for `datetime.now()` at call time.  A `strptime` failure or a
`datetime` overflow past year 9999 raises inside the `try`, and the handler
returns `[]`. -/
def find_dates_from_date (dates : List DateRec) (start_date : String)
    (max_future_days : Nat) (today : Date) : List String :=
  match parseDate start_date with
  | none => []
  | some s =>
    if 9999 < (addDays today 1).year then []
    else if 9999 < (addDays s max_future_days).year then []
    else
      let min_date_str := isoOfDate (dateMax s (addDays today 1))
      let max_date_str := isoOfDate (addDays s max_future_days)
      (dates.filter (fun r =>
        strLe min_date_str r.date && strLe r.date max_date_str)).map DateRec.date

/-! ## utils.py: retry_request / retry_request_async -/

/-- Observable behaviour of one `retry_request` run: the value returned
(`none` models falling off the loop and returning Python `None`), the number
of invocations of the wrapped operation, and the durations slept between
attempts. -/
structure RetryTrace (ε α : Type) where
  result : Option (Except ε α)
  calls : Nat
  sleeps : List ℚ

/-- The `for attempt in range(max_retries)` loop of `retry_request`.
`f` gives the outcome of each invocation, `jitter` the value
`random.uniform(0, 1)` draws before each retry.  `fuel` is the number of
remaining loop iterations; `fuel = 0` inside the loop body corresponds to
`attempt == max_retries - 1`, where the error is re-raised. -/
def retry_request_aux {ε α : Type} (f : Nat → Except ε α)
    (initial_delay delay_multiplier : Nat) (jitter : Nat → ℚ) :
    Nat → Nat → RetryTrace ε α
  | _, 0 => ⟨none, 0, []⟩
  | attempt, fuel + 1 =>
    match f attempt with
    | Except.ok v => ⟨some (Except.ok v), 1, []⟩
    | Except.error e =>
      if fuel = 0 then ⟨some (Except.error e), 1, []⟩
      else
        let rest := retry_request_aux f initial_delay delay_multiplier jitter (attempt + 1) fuel
        ⟨rest.result, rest.calls + 1,
          (((initial_delay * delay_multiplier ^ attempt : Nat) : ℚ) + jitter attempt) :: rest.sleeps⟩

/-- `utils.retry_request`.  `max_retries` is a Python int: `range` of a
non-positive value is empty. -/
def retry_request {ε α : Type} (f : Nat → Except ε α) (max_retries : Int)
    (initial_delay delay_multiplier : Nat) (jitter : Nat → ℚ) : RetryTrace ε α :=
  retry_request_aux f initial_delay delay_multiplier jitter 0 max_retries.toNat

/-- The loop of `retry_request_async`; the awaited
`session.request` + `raise_for_status` + `text()` block is the operation
`req`, yielding the response text or an exception. -/
def retry_request_async_aux {ε : Type} (req : Nat → Except ε String)
    (initial_delay delay_multiplier : Nat) (jitter : Nat → ℚ) :
    Nat → Nat → RetryTrace ε String
  | _, 0 => ⟨none, 0, []⟩
  | attempt, fuel + 1 =>
    match req attempt with
    | Except.ok v => ⟨some (Except.ok v), 1, []⟩
    | Except.error e =>
      if fuel = 0 then ⟨some (Except.error e), 1, []⟩
      else
        let rest := retry_request_async_aux req initial_delay delay_multiplier jitter (attempt + 1) fuel
        ⟨rest.result, rest.calls + 1,
          (((initial_delay * delay_multiplier ^ attempt : Nat) : ℚ) + jitter attempt) :: rest.sleeps⟩

/-- `utils.retry_request_async`. -/
def retry_request_async {ε : Type} (req : Nat → Except ε String) (max_retries : Int)
    (initial_delay delay_multiplier : Nat) (jitter : Nat → ℚ) : RetryTrace ε String :=
  retry_request_async_aux req initial_delay delay_multiplier jitter 0 max_retries.toNat

/-! ## utils.py: setup_csrf_token -/

/-- Observable behaviour of `setup_csrf_token`: the returned token or the
final raise, the number of configuration-endpoint attempts, the sleeps
performed (each 2 seconds in the source), and the `X-Csrf-Token` header
installed on the session. -/
structure CsrfResult where
  token : Except Unit String
  attempts : Nat
  sleeps : List Nat
  header : Option String

/-- The `for attempt in range(3)` loop of `setup_csrf_token`.  `resp` gives,
per attempt, either an exception from the GET/JSON step or the value of
`config.get('token')`.  A truthy token is installed and returned; a falsy
token (absent or empty) falls through to the next attempt WITHOUT sleeping,
since `time.sleep(2)` sits inside the `except` handler only. -/
def setup_csrf_token_aux (resp : Nat → Except Unit (Option String)) :
    Nat → Nat → CsrfResult
  | _, 0 => ⟨Except.error (), 0, [], none⟩
  | attempt, fuel + 1 =>
    match resp attempt with
    | Except.ok cfg =>
      match cfg with
      | some t =>
        if t = "" then
          let r := setup_csrf_token_aux resp (attempt + 1) fuel
          ⟨r.token, r.attempts + 1, r.sleeps, r.header⟩
        else ⟨Except.ok t, 1, [], some t⟩
      | none =>
        let r := setup_csrf_token_aux resp (attempt + 1) fuel
        ⟨r.token, r.attempts + 1, r.sleeps, r.header⟩
    | Except.error _ =>
      let r := setup_csrf_token_aux resp (attempt + 1) fuel
      ⟨r.token, r.attempts + 1, 2 :: r.sleeps, r.header⟩

/-- `utils.setup_csrf_token`. -/
def setup_csrf_token (resp : Nat → Except Unit (Option String)) : CsrfResult :=
  setup_csrf_token_aux resp 0 3

/-- The token delivered by one attempt, after Python truthiness: `none` for
an exception, a missing field, or an empty string. -/
def truthy_token_of : Except Unit (Option String) → Option String
  | Except.ok (some t) => if t = "" then none else some t
  | Except.ok none => none
  | Except.error _ => none

/-- Whether an attempt raised (entered the `except` handler). -/
def is_err_resp : Except Unit (Option String) → Bool
  | Except.error _ => true
  | Except.ok _ => false

/-! ## appointment_service.py -/

/-- One record of the remote `times` endpoint response; the source reads only
its `"time"` field. -/
structure TimeRec where
  time : String
deriving DecidableEq

/-- `ServiceEntry` from appointment_service.py. -/
structure ServiceEntry where
  branch_name : String
  branch_id : String
  service_name : String
  service_id : String
  qp_id : String
  adult : Int
  visits_per_day : Nat
  last_registered_date : Option String
deriving DecidableEq

/-- Oracle for everything `register_visit` / `register_visit_from_date`
observes from the outside world.  The HTTP helpers of the service already
turn transport errors into `None` / `[]` / `False`, so:
`serviceDetails` is `_get_service_details` after the `duration` /
`additionalDuration` defaulting (`none` = service missing or request
failed); `apiDates` is the JSON of the dates endpoint; `times d` is
`_get_available_times` for date `d`; `reserveResp k` is the appointment id
extracted by `_reserve_appointment` on the k-th reservation attempt
(`none` = no id or exception); `matchCustomerOk k` is whether the k-th
`_create_customer` call avoids raising; `confirmOk k` is whether the k-th
`_confirm_appointment` call returns HTTP 200; `pick k` drives
`random.choice` on the k-th attempt; `today` is `datetime.now()`. -/
structure Env where
  serviceDetails : Option (Nat × Nat)
  apiDates : List DateRec
  times : String → List TimeRec
  reserveResp : Nat → Option String
  matchCustomerOk : Nat → Bool
  confirmOk : Nat → Bool
  pick : Nat → Nat
  today : Date

/-- Counters threaded through one `register_visit`-style run. -/
structure RunState where
  totalAttempts : Nat
  totalSuccesses : Nat
  matchCalls : Nat
  confirmCalls : Nat
deriving DecidableEq

/-- Initial counters. -/
def RunState.init : RunState := ⟨0, 0, 0, 0⟩

/-- The per-date `while successful_registrations < visits_per_day and
times_copy` loop shared by `register_visit` (lines 280-334) and
`register_visit_from_date` (lines 459-512).  `fuel` is called with the
length of `times_copy`; each iteration removes the chosen element, so fuel
runs out exactly when the list does.  Returns (successful_registrations,
remaining times_copy, counters). -/
def date_loop (env : Env) (vpd : Nat) :
    Nat → Nat → List TimeRec → RunState → Nat × List TimeRec × RunState
  | 0, succ, times_copy, st => (succ, times_copy, st)
  | fuel + 1, succ, times_copy, st =>
    if succ < vpd ∧ times_copy ≠ [] then
      match env.reserveResp st.totalAttempts with
      | none =>
        date_loop env vpd fuel succ
          (times_copy.erase
            ((times_copy.get? (env.pick st.totalAttempts % times_copy.length)).getD ⟨""⟩))
          ⟨st.totalAttempts + 1, st.totalSuccesses, st.matchCalls, st.confirmCalls⟩
      | some _ =>
        if env.matchCustomerOk st.matchCalls then
          if env.confirmOk st.confirmCalls then
            date_loop env vpd fuel (succ + 1)
              (times_copy.erase
                ((times_copy.get? (env.pick st.totalAttempts % times_copy.length)).getD ⟨""⟩))
              ⟨st.totalAttempts + 1, st.totalSuccesses + 1, st.matchCalls + 1, st.confirmCalls + 1⟩
          else
            date_loop env vpd fuel succ
              (times_copy.erase
                ((times_copy.get? (env.pick st.totalAttempts % times_copy.length)).getD ⟨""⟩))
              ⟨st.totalAttempts + 1, st.totalSuccesses, st.matchCalls + 1, st.confirmCalls + 1⟩
        else
          date_loop env vpd fuel succ
            (times_copy.erase
              ((times_copy.get? (env.pick st.totalAttempts % times_copy.length)).getD ⟨""⟩))
            ⟨st.totalAttempts + 1, st.totalSuccesses, st.matchCalls + 1, st.confirmCalls⟩
    else (succ, times_copy, st)

/-- The `for date in available_dates` loop of `register_visit`
(lines 269-344), including the `last_processed_date` bookkeeping and the
break on the first date with a success.  The third component is a ghost
record of (date, successful_registrations) for every date whose per-date
loop ran. -/
def dates_loop (env : Env) (vpd : Nat) :
    List String → RunState → Option String → List (String × Nat) →
    RunState × Option String × List (String × Nat)
  | [], st, lp, dr => (st, lp, dr)
  | date :: rest, st, lp, dr =>
    let times := env.times date
    if times.isEmpty then dates_loop env vpd rest st (some date) dr
    else
      let r := date_loop env vpd times.length 0 times st
      let lp1 := if 0 < r.1 ∨ r.2.1.isEmpty then some date else lp
      let dr1 := dr ++ [(date, r.1)]
      if 0 < r.1 then (r.2.2, lp1, dr1)
      else dates_loop env vpd rest r.2.2 lp1 dr1

/-- Observable outcome of `register_visit`: its boolean return, the value
passed to `config.update_service_last_date` (if the call happened), the
final counters, and the ghost per-date success record. -/
structure VisitResult where
  success : Bool
  watermark_update : Option String
  st : RunState
  date_results : List (String × Nat)

/-- The watermark-commit epilogue of `register_visit` (lines 346-359):
`if total_successes > 0 and last_processed_date:` update the stored
watermark and return True, else return False.  A Python `None` and an empty
string are both falsy. -/
def commit_watermark (r : RunState × Option String × List (String × Nat)) : VisitResult :=
  match r.2.1 with
  | some d =>
    if 0 < r.1.totalSuccesses ∧ d ≠ "" then ⟨true, some d, r.1, r.2.2⟩
    else ⟨false, none, r.1, r.2.2⟩
  | none => ⟨false, none, r.1, r.2.2⟩

/-- `AppointmentService.register_visit` (lines 227-359).  The slot length
`duration + additional * (adult - 1)` only parameterises the oracle's URLs,
so it is computed but not threaded further. -/
def register_visit (env : Env) (entry : ServiceEntry) : VisitResult :=
  match env.serviceDetails with
  | none => ⟨false, none, RunState.init, []⟩
  | some dur =>
    let _slot_length : Int := (dur.1 : Int) + (dur.2 : Int) * (entry.adult - 1)
    let avail := find_next_dates env.apiDates entry.last_registered_date
    if avail.isEmpty then ⟨false, none, RunState.init, []⟩
    else commit_watermark (dates_loop env entry.visits_per_day avail RunState.init none [])

/-- The `for date in available_dates` loop of `register_visit_from_date`
(lines 448-512): no break after a successful date and no
`last_processed_date`. -/
def reset_dates_loop (env : Env) (vpd : Nat) :
    List String → RunState → List (String × Nat) → RunState × List (String × Nat)
  | [], st, dr => (st, dr)
  | date :: rest, st, dr =>
    let times := env.times date
    if times.isEmpty then reset_dates_loop env vpd rest st dr
    else
      let r := date_loop env vpd times.length 0 times st
      reset_dates_loop env vpd rest r.2.2 (dr ++ [(date, r.1)])

/-- Observable outcome of `register_visit_from_date`; the function performs
no watermark write, so no update field exists. -/
structure ResetVisitResult where
  success : Bool
  st : RunState
  date_results : List (String × Nat)

/-- `AppointmentService.register_visit_from_date` (lines 397-526). -/
def register_visit_from_date (env : Env) (entry : ServiceEntry)
    (start_date : String) (max_future_days : Nat) : ResetVisitResult :=
  match env.serviceDetails with
  | none => ⟨false, RunState.init, []⟩
  | some dur =>
    let _slot_length : Int := (dur.1 : Int) + (dur.2 : Int) * (entry.adult - 1)
    let avail := find_dates_from_date env.apiDates start_date max_future_days env.today
    if avail.isEmpty then ⟨false, RunState.init, []⟩
    else
      let r := reset_dates_loop env entry.visits_per_day avail RunState.init []
      ⟨0 < r.1.totalSuccesses, r.1, r.2⟩

/-! ## Cycle scheduler (run_reset_cycle_for_all_services) -/

/-- One service dict of channels.json, with the fields the source reads. -/
structure ServiceData where
  branch_name : String
  branch_id : String
  service_name : String
  service_id : String
  qpId : String
  adult : Int
  visits_per_day : Nat
  last_registered_date : Option String
deriving DecidableEq

/-- One channel dict of channels.json. -/
structure Channel where
  id : String
  name : String
  chat_id : String
  services : List ServiceData
deriving DecidableEq

/-- The `ServiceEntry` the reset cycle builds (lines 576-585): every field
from the config except the watermark, which is forced to `None`. -/
def reset_entry_of (s : ServiceData) : ServiceEntry :=
  ⟨s.branch_name, s.branch_id, s.service_name, s.service_id, s.qpId,
    s.adult, s.visits_per_day, none⟩

/-- Inner service loop of `run_reset_cycle_for_all_services`; threads a
global service index (selecting the per-service fresh session / oracle) and
the total/successful counters. -/
def reset_cycle_services (envOf : Nat → Env) (start_date : String)
    (max_future_days : Nat) :
    List ServiceData → Nat → Nat → Nat → Nat × Nat × Nat
  | [], idx, tot, suc => (idx, tot, suc)
  | s :: rest, idx, tot, suc =>
    let r := register_visit_from_date (envOf idx) (reset_entry_of s) start_date max_future_days
    reset_cycle_services envOf start_date max_future_days rest (idx + 1) (tot + 1)
      (if r.success then suc + 1 else suc)

/-- Outer channel loop of `run_reset_cycle_for_all_services`. -/
def reset_cycle_channels (envOf : Nat → Env) (start_date : String)
    (max_future_days : Nat) :
    List Channel → Nat → Nat → Nat → Nat × Nat × Nat
  | [], idx, tot, suc => (idx, tot, suc)
  | ch :: rest, idx, tot, suc =>
    let r := reset_cycle_services envOf start_date max_future_days ch.services idx tot suc
    reset_cycle_channels envOf start_date max_future_days rest r.1 r.2.1 r.2.2

/-- `AppointmentService.run_reset_cycle_for_all_services` (lines 552-606):
returns the persisted channel configuration after the run together with the
(total, successful) service counters.  The source contains no call to
`config.update_service_last_date` on this path, so the configuration it
returns is the one it was given. -/
def run_reset_cycle_for_all_services (enabled : Bool) (envOf : Nat → Env)
    (start_date : String) (max_future_days : Nat) (channels : List Channel) :
    List Channel × Nat × Nat :=
  if enabled then
    let r := reset_cycle_channels envOf start_date max_future_days channels 0 0 0
    (channels, r.2.1, r.2.2)
  else (channels, 0, 0)

/-- A channel list with every watermark blanked; used to state that the
reset cycle's behaviour is independent of the stored watermarks. -/
def erase_watermarks (channels : List Channel) : List Channel :=
  channels.map (fun ch =>
    { ch with services := ch.services.map (fun s => { s with last_registered_date := none }) })

/-! ## Concrete demonstration environments (used by witnesses) -/

/-- A one-date, one-slot environment in which the whole pipeline succeeds. -/
def env_demo : Env :=
  ⟨some (20, 10), [⟨"2024-03-05"⟩], fun _ => [⟨"08:00"⟩], fun _ => some "apt1",
    fun _ => true, fun _ => true, fun _ => 0, ⟨2024, 3, 1⟩⟩

/-- The same environment but with every reserve call rejected (no id). -/
def env_reject : Env :=
  ⟨some (20, 10), [⟨"2024-03-05"⟩], fun _ => [⟨"08:00"⟩], fun _ => none,
    fun _ => true, fun _ => true, fun _ => 0, ⟨2024, 3, 1⟩⟩

/-- A concrete service entry with watermark "2024-03-01" and quota 1. -/
def entry_demo : ServiceEntry :=
  ⟨"Branch", "b1", "Service", "s1", "qp1", 1, 1, some "2024-03-01"⟩

/-! ## Supporting lemmas -/

/-- The structural comparison agrees with the lexicographic order on char
lists. -/
lemma strLtL_iff : ∀ as bs : List Char, strLtL as bs = true ↔ as < bs := by
  intro as
  induction as with
  | nil =>
    intro bs
    cases bs with
    | nil =>
      simp only [strLtL, Bool.false_eq_true, false_iff]
      exact fun h => (List.Lex.not_nil_right _ _) h
    | cons b bs =>
      simp only [strLtL, true_iff]
      exact List.nil_lt_cons b bs
  | cons a as ih =>
    intro bs
    cases bs with
    | nil =>
      simp only [strLtL, Bool.false_eq_true, false_iff]
      exact fun h => (List.Lex.not_nil_right _ _) h
    | cons b bs =>
      rcases lt_trichotomy a b with hab | hab | hab
      · simp only [strLtL, hab, if_true, true_iff]
        exact List.Lex.rel hab
      · subst hab
        simp only [strLtL, lt_irrefl, if_false]
        rw [ih bs]
        exact (List.Lex.cons_iff).symm
      · have h1 : ¬ a < b := asymm hab
        simp only [strLtL, h1, if_false, hab, if_true, Bool.false_eq_true, false_iff]
        intro h
        cases h with
        | cons h2 => exact lt_irrefl _ hab
        | rel h2 => exact h1 h2

/-- Python string `<` agrees with the standard lexicographic order. -/
lemma strLt_iff (s t : String) : strLt s t = true ↔ s < t := by
  rw [String.lt_iff_toList_lt]
  exact strLtL_iff s.data t.data

/-- Python string `<=` agrees with the standard lexicographic order. -/
lemma strLe_iff (s t : String) : strLe s t = true ↔ s ≤ t := by
  rw [strLe, Bool.not_eq_true', ← Bool.not_eq_true, not_iff_comm, strLt_iff, not_le]

/-- `strLt` as a decidable test. -/
lemma strLt_eq_decide (s t : String) : strLt s t = decide (s < t) := by
  by_cases h : s < t
  · rw [(strLt_iff s t).mpr h, decide_eq_true h]
  · rw [decide_eq_false h]
    exact Bool.eq_false_iff.mpr (fun hc => h ((strLt_iff s t).mp hc))

/-- `strLe` as a decidable test. -/
lemma strLe_eq_decide (s t : String) : strLe s t = decide (s ≤ t) := by
  by_cases h : s ≤ t
  · rw [(strLe_iff s t).mpr h, decide_eq_true h]
  · rw [decide_eq_false h]
    exact Bool.eq_false_iff.mpr (fun hc => h ((strLe_iff s t).mp hc))

/-- Any nonempty string is lexicographically above the empty string. -/
lemma empty_string_lt {s : String} (hs : s ≠ "") : "" < s := by
  rw [String.lt_iff_toList_lt]
  rcases s with ⟨l⟩
  cases l with
  | nil => exact absurd rfl hs
  | cons c cs => exact List.nil_lt_cons c cs

/-- Every member of `find_next_dates` passes the `keep_date` test. -/
lemma keep_of_mem_find_next_dates {dates : List DateRec} {last : Option String} {d : String}
    (h : d ∈ find_next_dates dates last) : keep_date last d = true := by
  rcases List.mem_map.mp h with ⟨r, hr, rfl⟩
  exact (List.mem_filter.mp hr).2

/-- `find_dates_from_date`, unfolded on the non-exceptional path. -/
lemma find_dates_from_date_eq (dates : List DateRec) {start_date : String} {s : Date}
    (max_future_days : Nat) (today : Date)
    (hp : parseDate start_date = some s)
    (h1 : (addDays today 1).year ≤ 9999)
    (h2 : (addDays s max_future_days).year ≤ 9999) :
    find_dates_from_date dates start_date max_future_days today =
      (dates.filter (fun r =>
        decide (isoOfDate (dateMax s (addDays today 1)) ≤ r.date) &&
        decide (r.date ≤ isoOfDate (addDays s max_future_days)))).map DateRec.date := by
  have hfun : (fun r : DateRec =>
      strLe (isoOfDate (dateMax s (addDays today 1))) r.date &&
      strLe r.date (isoOfDate (addDays s max_future_days))) =
      (fun r : DateRec =>
        decide (isoOfDate (dateMax s (addDays today 1)) ≤ r.date) &&
        decide (r.date ≤ isoOfDate (addDays s max_future_days))) :=
    funext fun r => by rw [strLe_eq_decide, strLe_eq_decide]
  simp only [find_dates_from_date, hp, Nat.not_lt.mpr h1, Nat.not_lt.mpr h2, if_false]
  rw [hfun]

/-- The two retry loops have identical backoff structure. -/
lemma retry_request_async_aux_eq {ε : Type} (req : Nat → Except ε String)
    (initial_delay delay_multiplier : Nat) (jitter : Nat → ℚ) :
    ∀ fuel attempt,
      retry_request_async_aux req initial_delay delay_multiplier jitter attempt fuel =
        retry_request_aux req initial_delay delay_multiplier jitter attempt fuel := by
  intro fuel
  induction fuel with
  | zero => intro attempt; rfl
  | succ n ih =>
    intro attempt
    simp only [retry_request_async_aux, retry_request_aux]
    cases req attempt with
    | ok v => rfl
    | error e =>
      by_cases hn : n = 0
      · simp [hn]
      · simp [hn, ih]

/-! ## Claim theorems -/

/-- Claim C5: `find_next_dates` returns all dates when the watermark is
null, and exactly the dates strictly greater (lexicographically) than a
non-null watermark, preserving order; on watermark "2024-03-01" and dates
["2024-02-28","2024-03-01","2024-03-02"] only "2024-03-02" survives.  (A
watermark, when present, is an ISO date string, hence nonempty.) -/
theorem find_next_dates_c5 :
    (∀ dates : List DateRec, find_next_dates dates none = dates.map DateRec.date) ∧
    (∀ (dates : List DateRec) (w : String), w ≠ "" →
      find_next_dates dates (some w) =
        (dates.filter (fun r => decide (w < r.date))).map DateRec.date) ∧
    find_next_dates [⟨"2024-02-28"⟩, ⟨"2024-03-01"⟩, ⟨"2024-03-02"⟩]
        (some "2024-03-01") = ["2024-03-02"] := by
  refine ⟨?_, ?_, ?_⟩
  · intro dates
    simp [find_next_dates, keep_date]
  · intro dates w hw
    have hfun : (fun r : DateRec => keep_date (some w) r.date) =
        (fun r : DateRec => decide (w < r.date)) :=
      funext fun r => by rw [keep_date, if_neg hw, strLt_eq_decide]
    rw [find_next_dates, hfun]
  · decide

/-- Witness for C5 at the concrete watermark of the claim. -/
theorem find_next_dates_c5_witness :
    find_next_dates [⟨"2024-02-28"⟩, ⟨"2024-03-01"⟩, ⟨"2024-03-02"⟩] (some "2024-03-01") =
      (([⟨"2024-02-28"⟩, ⟨"2024-03-01"⟩, ⟨"2024-03-02"⟩] : List DateRec).filter
        (fun r => decide ("2024-03-01" < r.date))).map DateRec.date :=
  find_next_dates_c5.2.1 [⟨"2024-02-28"⟩, ⟨"2024-03-01"⟩, ⟨"2024-03-02"⟩]
    "2024-03-01" (by decide)

set_option maxRecDepth 20000 in
/-- Claim C6: windowed (reset) filtering keeps exactly the dates of the
inclusive window `[max(start_date, tomorrow), start_date + max_future_days]`
(ISO strings ordered lexicographically), where tomorrow comes from the wall
clock; with start 2024-03-01, 30-day window and clock 2024-03-01, the window
is exactly ["2024-03-02", "2024-03-31"], excluding the same-day
"2024-03-01" and the out-of-window "2024-04-05". -/
theorem find_dates_from_date_c6 :
    (∀ (dates : List DateRec) (start_date : String) (s : Date)
        (max_future_days : Nat) (today : Date),
      parseDate start_date = some s →
      (addDays today 1).year ≤ 9999 →
      (addDays s max_future_days).year ≤ 9999 →
      find_dates_from_date dates start_date max_future_days today =
        (dates.filter (fun r =>
          decide (isoOfDate (dateMax s (addDays today 1)) ≤ r.date) &&
          decide (r.date ≤ isoOfDate (addDays s max_future_days)))).map DateRec.date) ∧
    (∀ dates : List DateRec,
      find_dates_from_date dates "2024-03-01" 30 ⟨2024, 3, 1⟩ =
        (dates.filter (fun r =>
          decide ("2024-03-02" ≤ r.date) && decide (r.date ≤ "2024-03-31"))).map DateRec.date) ∧
    find_dates_from_date
        [⟨"2024-03-01"⟩, ⟨"2024-03-02"⟩, ⟨"2024-03-15"⟩, ⟨"2024-03-31"⟩, ⟨"2024-04-01"⟩, ⟨"2024-04-05"⟩]
        "2024-03-01" 30 ⟨2024, 3, 1⟩ = ["2024-03-02", "2024-03-15", "2024-03-31"] := by
  refine ⟨?_, ?_, ?_⟩
  · intro dates start_date s max_future_days today hp h1 h2
    exact find_dates_from_date_eq dates max_future_days today hp h1 h2
  · intro dates
    rw [find_dates_from_date_eq dates 30 ⟨2024, 3, 1⟩
      (show parseDate "2024-03-01" = some ⟨2024, 3, 1⟩ by decide) (by decide) (by decide)]
    have e1 : isoOfDate (dateMax ⟨2024, 3, 1⟩ (addDays ⟨2024, 3, 1⟩ 1)) = "2024-03-02" := by decide
    have e2 : isoOfDate (addDays (⟨2024, 3, 1⟩ : Date) 30) = "2024-03-31" := by decide
    simp only [e1, e2]
  · decide

/-- Witness for C6 at the concrete window of the claim. -/
theorem find_dates_from_date_c6_witness :
    find_dates_from_date [⟨"2024-03-20"⟩, ⟨"2024-04-05"⟩] "2024-03-01" 30 ⟨2024, 3, 1⟩ =
      (([⟨"2024-03-20"⟩, ⟨"2024-04-05"⟩] : List DateRec).filter (fun r =>
        decide (isoOfDate (dateMax ⟨2024, 3, 1⟩ (addDays ⟨2024, 3, 1⟩ 1)) ≤ r.date) &&
        decide (r.date ≤ isoOfDate (addDays (⟨2024, 3, 1⟩ : Date) 30)))).map DateRec.date :=
  find_dates_from_date_c6.1 [⟨"2024-03-20"⟩, ⟨"2024-04-05"⟩] "2024-03-01"
    ⟨2024, 3, 1⟩ 30 ⟨2024, 3, 1⟩ (by decide) (by decide) (by decide)

/-- Claim C4: with `max_retries=5, initial_delay=1, delay_multiplier=2` and
an operation failing on every invocation, `retry_request` calls it exactly 5
times, re-raises the error of the 5th (final) attempt unchanged, and before
the 4 retries sleeps `1*2^attempt` plus a jitter in `[0,1)`, hence at least
1, 2, 4, 8 seconds; `retry_request_async` runs the identical backoff
arithmetic with the same jitter distribution. -/
theorem retry_request_c4 {ε ε2 α : Type} (f : Nat → Except ε α) (errs : Nat → ε)
    (g : Nat → Except ε2 String) (errs2 : Nat → ε2) (jitter : Nat → ℚ)
    (hf : ∀ i, f i = Except.error (errs i))
    (hg : ∀ i, g i = Except.error (errs2 i))
    (hj : ∀ i, 0 ≤ jitter i ∧ jitter i < 1) :
    (retry_request f 5 1 2 jitter).calls = 5 ∧
    (retry_request f 5 1 2 jitter).result = some (Except.error (errs 4)) ∧
    (retry_request f 5 1 2 jitter).sleeps =
      [1 + jitter 0, 2 + jitter 1, 4 + jitter 2, 8 + jitter 3] ∧
    (1 ≤ (retry_request f 5 1 2 jitter).sleeps.getD 0 0 ∧
      2 ≤ (retry_request f 5 1 2 jitter).sleeps.getD 1 0 ∧
      4 ≤ (retry_request f 5 1 2 jitter).sleeps.getD 2 0 ∧
      8 ≤ (retry_request f 5 1 2 jitter).sleeps.getD 3 0) ∧
    (retry_request_async g 5 1 2 jitter).calls = 5 ∧
    (retry_request_async g 5 1 2 jitter).result = some (Except.error (errs2 4)) ∧
    (retry_request_async g 5 1 2 jitter).sleeps = (retry_request f 5 1 2 jitter).sleeps := by
  have hfa : retry_request f 5 1 2 jitter =
      ⟨some (Except.error (errs 4)), 5,
        [1 + jitter 0, 2 + jitter 1, 4 + jitter 2, 8 + jitter 3]⟩ := by
    show retry_request_aux f 1 2 jitter 0 5 = _
    simp only [retry_request_aux, hf]
    norm_num
  have hge : retry_request_async g 5 1 2 jitter = retry_request_aux g 1 2 jitter 0 5 :=
    retry_request_async_aux_eq g 1 2 jitter 5 0
  have hga : retry_request_async g 5 1 2 jitter =
      ⟨some (Except.error (errs2 4)), 5,
        [1 + jitter 0, 2 + jitter 1, 4 + jitter 2, 8 + jitter 3]⟩ := by
    rw [hge]
    simp only [retry_request_aux, hg]
    norm_num
  have j0 := (hj 0).1
  have j1 := (hj 1).1
  have j2 := (hj 2).1
  have j3 := (hj 3).1
  rw [hfa, hga]
  refine ⟨rfl, rfl, rfl, ⟨?_, ?_, ?_, ?_⟩, rfl, rfl, rfl⟩ <;>
    simp [List.getD] <;> linarith

/-- Witness for C4: constant failure with zero jitter. -/
theorem retry_request_c4_witness :
    (retry_request (fun _ => (Except.error 0 : Except Nat Nat)) 5 1 2 (fun _ => 0)).calls = 5 ∧
    (retry_request_async (fun _ => (Except.error 0 : Except Nat String)) 5 1 2
      (fun _ => 0)).result = some (Except.error 0) := by
  have h := retry_request_c4 (fun _ => (Except.error 0 : Except Nat Nat)) (fun _ => 0)
    (fun _ => (Except.error 0 : Except Nat String)) (fun _ => 0) (fun _ => 0)
    (fun _ => rfl) (fun _ => rfl) (fun _ => by norm_num)
  exact ⟨h.1, h.2.2.2.2.2.1⟩

/-- A truthy-token attempt did not raise. -/
lemma not_err_of_truthy {x : Except Unit (Option String)} {t : String}
    (h : truthy_token_of x = some t) : is_err_resp x = false := by
  cases x with
  | error e => simp [truthy_token_of] at h
  | ok cfg => rfl

/-- One CSRF attempt that yields a truthy token returns it at once. -/
lemma setup_csrf_token_aux_truthy {resp : Nat → Except Unit (Option String)}
    {attempt : Nat} {t : String} (fuel : Nat)
    (h : truthy_token_of (resp attempt) = some t) :
    setup_csrf_token_aux resp attempt (fuel + 1) = ⟨Except.ok t, 1, [], some t⟩ := by
  cases hr : resp attempt with
  | error e => simp [truthy_token_of, hr] at h
  | ok cfg =>
    cases cfg with
    | none => simp [truthy_token_of, hr] at h
    | some u =>
      by_cases hu : u = ""
      · simp [truthy_token_of, hr, hu] at h
      · simp only [truthy_token_of, hr, if_neg hu, Option.some.injEq] at h
        subst h
        simp [setup_csrf_token_aux, hr, hu]

/-- One CSRF attempt without a truthy token recurses, sleeping 2 seconds
exactly when it raised. -/
lemma setup_csrf_token_aux_fail {resp : Nat → Except Unit (Option String)}
    {attempt : Nat} (fuel : Nat)
    (h : truthy_token_of (resp attempt) = none) :
    setup_csrf_token_aux resp attempt (fuel + 1) =
      ⟨(setup_csrf_token_aux resp (attempt + 1) fuel).token,
        (setup_csrf_token_aux resp (attempt + 1) fuel).attempts + 1,
        (if is_err_resp (resp attempt) then
          2 :: (setup_csrf_token_aux resp (attempt + 1) fuel).sleeps
        else (setup_csrf_token_aux resp (attempt + 1) fuel).sleeps),
        (setup_csrf_token_aux resp (attempt + 1) fuel).header⟩ := by
  cases hr : resp attempt with
  | error e => simp [setup_csrf_token_aux, hr, is_err_resp]
  | ok cfg =>
    cases cfg with
    | none => simp [setup_csrf_token_aux, hr, is_err_resp]
    | some u =>
      by_cases hu : u = ""
      · simp [setup_csrf_token_aux, hr, hu, is_err_resp]
      · simp [truthy_token_of, hr, hu] at h

/-- Claim C10: a non-positive `max_retries` makes both retry wrappers return
`None` without invoking the operation and without raising. -/
theorem retry_request_c10 {ε ε2 α : Type} (f : Nat → Except ε α)
    (g : Nat → Except ε2 String) (max_retries : Int) (h : max_retries ≤ 0)
    (initial_delay delay_multiplier : Nat) (jitter : Nat → ℚ) :
    retry_request f max_retries initial_delay delay_multiplier jitter =
      ⟨none, 0, []⟩ ∧
    retry_request_async g max_retries initial_delay delay_multiplier jitter =
      ⟨none, 0, []⟩ := by
  have hz : max_retries.toNat = 0 := Int.toNat_of_nonpos h
  rw [retry_request, retry_request_async, hz]
  exact ⟨rfl, rfl⟩

/-- Witness for C10 at `max_retries = -2` and `0`. -/
theorem retry_request_c10_witness :
    retry_request (fun _ => (Except.error 0 : Except Nat Nat)) (-2) 1 2 (fun _ => 0) =
      ⟨none, 0, []⟩ ∧
    retry_request_async (fun _ => (Except.error 0 : Except Nat String)) 0 1 2 (fun _ => 0) =
      ⟨none, 0, []⟩ :=
  ⟨(retry_request_c10 (fun _ => Except.error 0) (fun _ => Except.error 0) (-2)
      (by norm_num) 1 2 (fun _ => 0)).1,
   (retry_request_c10 (fun _ => (Except.error 0 : Except Nat Nat))
      (fun _ => Except.error 0) 0 (by norm_num) 1 2 (fun _ => 0)).2⟩

/-- Counterexample to claim C9 as stated: when every configuration call
succeeds but carries no token, `setup_csrf_token` makes all 3 attempts with
NO pause between consecutive attempts (the 2-second sleep sits in the
`except` handler only), so "a fixed 2-second pause between consecutive
attempts" fails. -/
theorem setup_csrf_token_c9_counterexample :
    (setup_csrf_token (fun _ => Except.ok none)).attempts = 3 ∧
    ¬ ((setup_csrf_token (fun _ => Except.ok none)).sleeps.length =
        (setup_csrf_token (fun _ => Except.ok none)).attempts - 1) := by
  decide

/-- Claim C9 (amended): `setup_csrf_token` attempts the configuration
endpoint at most 3 times; it raises iff no truthy token appears within the
3 attempts; the first truthy token is installed as the session header and
returned; every pause is exactly 2 seconds, and a pause follows exactly the
attempts that raised an exception — an attempt that succeeds without a
token proceeds immediately. -/
theorem setup_csrf_token_c9 (resp : Nat → Except Unit (Option String)) :
    (setup_csrf_token resp).attempts ≤ 3 ∧
    (∀ s ∈ (setup_csrf_token resp).sleeps, s = 2) ∧
    (setup_csrf_token resp).sleeps.length =
      ((List.range (setup_csrf_token resp).attempts).filter
        (fun i => is_err_resp (resp i))).length ∧
    ((∃ t, (setup_csrf_token resp).token = Except.ok t) ↔
      ∃ i, i < 3 ∧ (truthy_token_of (resp i)).isSome) ∧
    (∀ t, (setup_csrf_token resp).token = Except.ok t →
      (setup_csrf_token resp).header = some t ∧
      truthy_token_of (resp ((setup_csrf_token resp).attempts - 1)) = some t ∧
      ∀ j < (setup_csrf_token resp).attempts - 1, truthy_token_of (resp j) = none) := by
  cases ht0 : truthy_token_of (resp 0) with
  | some t0 =>
    have e : setup_csrf_token resp = ⟨Except.ok t0, 1, [], some t0⟩ :=
      setup_csrf_token_aux_truthy 2 ht0
    rw [e]
    refine ⟨by norm_num, by simp, ?_, ?_, ?_⟩
    · simp [List.range_succ, not_err_of_truthy ht0]
    · exact ⟨fun _ => ⟨0, by norm_num, by simp [ht0]⟩, fun _ => ⟨t0, rfl⟩⟩
    · intro t ht
      obtain rfl : t0 = t := by simpa using ht
      exact ⟨rfl, ht0, fun j hj => by simp at hj⟩
  | none =>
    have e0 : setup_csrf_token resp =
        ⟨(setup_csrf_token_aux resp 1 2).token,
          (setup_csrf_token_aux resp 1 2).attempts + 1,
          (if is_err_resp (resp 0) then 2 :: (setup_csrf_token_aux resp 1 2).sleeps
            else (setup_csrf_token_aux resp 1 2).sleeps),
          (setup_csrf_token_aux resp 1 2).header⟩ :=
      setup_csrf_token_aux_fail 2 ht0
    cases ht1 : truthy_token_of (resp 1) with
    | some t1 =>
      have e1 : setup_csrf_token_aux resp 1 2 = ⟨Except.ok t1, 1, [], some t1⟩ :=
        setup_csrf_token_aux_truthy 1 ht1
      rw [e0, e1]
      refine ⟨by norm_num, ?_, ?_, ?_, ?_⟩
      · by_cases he0 : is_err_resp (resp 0) <;> simp [he0]
      · by_cases he0 : is_err_resp (resp 0) <;>
          simp [he0, List.range_succ, not_err_of_truthy ht1]
      · exact ⟨fun _ => ⟨1, by norm_num, by simp [ht1]⟩, fun _ => ⟨t1, rfl⟩⟩
      · intro t ht
        obtain rfl : t1 = t := by simpa using ht
        refine ⟨rfl, ht1, ?_⟩
        intro j hj
        have hj1 : j < 1 := by simpa using hj
        obtain rfl : j = 0 := by omega
        exact ht0
    | none =>
      have e1 : setup_csrf_token_aux resp 1 2 =
          ⟨(setup_csrf_token_aux resp 2 1).token,
            (setup_csrf_token_aux resp 2 1).attempts + 1,
            (if is_err_resp (resp 1) then 2 :: (setup_csrf_token_aux resp 2 1).sleeps
              else (setup_csrf_token_aux resp 2 1).sleeps),
            (setup_csrf_token_aux resp 2 1).header⟩ :=
        setup_csrf_token_aux_fail 1 ht1
      cases ht2 : truthy_token_of (resp 2) with
      | some t2 =>
        have e2 : setup_csrf_token_aux resp 2 1 = ⟨Except.ok t2, 1, [], some t2⟩ :=
          setup_csrf_token_aux_truthy 0 ht2
        rw [e0, e1, e2]
        refine ⟨by norm_num, ?_, ?_, ?_, ?_⟩
        · by_cases he0 : is_err_resp (resp 0) <;> by_cases he1 : is_err_resp (resp 1) <;>
            simp [he0, he1]
        · by_cases he0 : is_err_resp (resp 0) <;> by_cases he1 : is_err_resp (resp 1) <;>
            simp [he0, he1, List.range_succ, not_err_of_truthy ht2]
        · exact ⟨fun _ => ⟨2, by norm_num, by simp [ht2]⟩, fun _ => ⟨t2, rfl⟩⟩
        · intro t ht
          obtain rfl : t2 = t := by simpa using ht
          refine ⟨rfl, ht2, ?_⟩
          intro j hj
          have hj2 : j < 2 := by simpa using hj
          interval_cases j
          · exact ht0
          · exact ht1
      | none =>
        have e2 : setup_csrf_token_aux resp 2 1 =
            ⟨(setup_csrf_token_aux resp 3 0).token,
              (setup_csrf_token_aux resp 3 0).attempts + 1,
              (if is_err_resp (resp 2) then 2 :: (setup_csrf_token_aux resp 3 0).sleeps
                else (setup_csrf_token_aux resp 3 0).sleeps),
              (setup_csrf_token_aux resp 3 0).header⟩ :=
          setup_csrf_token_aux_fail 0 ht2
        have ez : setup_csrf_token_aux resp 3 0 = ⟨Except.error (), 0, [], none⟩ := rfl
        rw [e0, e1, e2, ez]
        refine ⟨by norm_num, ?_, ?_, ?_, ?_⟩
        · by_cases he0 : is_err_resp (resp 0) <;> by_cases he1 : is_err_resp (resp 1) <;>
            by_cases he2 : is_err_resp (resp 2) <;> simp [he0, he1, he2]
        · by_cases he0 : is_err_resp (resp 0) <;> by_cases he1 : is_err_resp (resp 1) <;>
            by_cases he2 : is_err_resp (resp 2) <;>
            simp [he0, he1, he2, List.range_succ]
        · constructor
          · rintro ⟨t, ht⟩
            simp at ht
          · rintro ⟨i, hi, hsome⟩
            interval_cases i <;> simp_all
        · intro t ht
          simp at ht

/-- Witness for C9 (amended) at a run whose first attempt raises and whose
second yields a token. -/
theorem setup_csrf_token_c9_witness :
    (setup_csrf_token
        (fun i => if i = 0 then Except.error () else Except.ok (some "tok"))).attempts ≤ 3 ∧
    (setup_csrf_token
        (fun i => if i = 0 then Except.error () else Except.ok (some "tok"))).header = some "tok" := by
  have h := setup_csrf_token_c9
    (fun i => if i = 0 then Except.error () else Except.ok (some "tok"))
  refine ⟨h.1, (h.2.2.2.2 "tok" ?_).1⟩
  rfl

/-! ## Loop lemmas for the reservation pipeline -/

/-- The per-date loop never counts past the quota. -/
lemma date_loop_succ_le (env : Env) (vpd : Nat) :
    ∀ (fuel succ : Nat) (tc : List TimeRec) (st : RunState), succ ≤ vpd →
      (date_loop env vpd fuel succ tc st).1 ≤ vpd := by
  intro fuel
  induction fuel with
  | zero => intro succ tc st h; exact h
  | succ n ih =>
    intro succ tc st h
    rw [date_loop]
    split_ifs with hg hm hc
    · cases hres : env.reserveResp st.totalAttempts with
      | none => exact ih _ _ _ h
      | some id => exact ih _ _ _ hg.1
    · cases hres : env.reserveResp st.totalAttempts with
      | none => exact ih _ _ _ h
      | some id => exact ih _ _ _ h
    · cases hres : env.reserveResp st.totalAttempts with
      | none => exact ih _ _ _ h
      | some id => exact ih _ _ _ h
    · exact h

/-- Success counting: the per-date counter and the global counter advance in
lockstep, and the other counters never decrease. -/
lemma date_loop_spec (env : Env) (vpd : Nat) :
    ∀ (fuel succ : Nat) (tc : List TimeRec) (st : RunState),
      ∃ k, (date_loop env vpd fuel succ tc st).1 = succ + k ∧
        (date_loop env vpd fuel succ tc st).2.2.totalSuccesses =
          st.totalSuccesses + k := by
  intro fuel
  induction fuel with
  | zero => intro succ tc st; exact ⟨0, rfl, rfl⟩
  | succ n ih =>
    intro succ tc st
    rw [date_loop]
    split_ifs with hg hm hc
    · cases hres : env.reserveResp st.totalAttempts with
      | none => exact ih _ _ _
      | some id =>
        obtain ⟨k, h1, h2⟩ := ih (succ + 1)
          (tc.erase ((tc.get? (env.pick st.totalAttempts % tc.length)).getD ⟨""⟩))
          ⟨st.totalAttempts + 1, st.totalSuccesses + 1, st.matchCalls + 1, st.confirmCalls + 1⟩
        refine ⟨k + 1, ?_, ?_⟩
        · dsimp only
          omega
        · dsimp only
          dsimp only at h2
          omega
    · cases hres : env.reserveResp st.totalAttempts with
      | none => exact ih _ _ _
      | some id => exact ih _ _ _
    · cases hres : env.reserveResp st.totalAttempts with
      | none => exact ih _ _ _
      | some id => exact ih _ _ _
    · exact ⟨0, rfl, rfl⟩

/-- When no reservation ever yields an id, the loop only burns attempts:
no customer is matched, nothing is confirmed, no success is counted. -/
lemma date_loop_reserve_none (env : Env) (vpd : Nat)
    (hr : ∀ n, env.reserveResp n = none) :
    ∀ (fuel succ : Nat) (tc : List TimeRec) (st : RunState),
      (date_loop env vpd fuel succ tc st).1 = succ ∧
      (date_loop env vpd fuel succ tc st).2.2.totalSuccesses = st.totalSuccesses ∧
      (date_loop env vpd fuel succ tc st).2.2.matchCalls = st.matchCalls ∧
      (date_loop env vpd fuel succ tc st).2.2.confirmCalls = st.confirmCalls := by
  intro fuel
  induction fuel with
  | zero => intro succ tc st; exact ⟨rfl, rfl, rfl, rfl⟩
  | succ n ih =>
    intro succ tc st
    rw [date_loop]
    split_ifs with hg hm hc <;>
      first
        | (rw [hr st.totalAttempts]; exact ih _ _ _)
        | exact ⟨rfl, rfl, rfl, rfl⟩

/-- The element `random.choice` draws belongs to the candidate list. -/
lemma choice_mem (tc : List TimeRec) (i : Nat) (h : tc ≠ []) :
    (tc.get? (i % tc.length)).getD ⟨""⟩ ∈ tc := by
  have hlen : 0 < tc.length := List.length_pos.mpr h
  have hidx : i % tc.length < tc.length := Nat.mod_lt _ hlen
  rw [List.get?_eq_getElem?, List.getElem?_eq_getElem hidx, Option.getD_some]
  exact List.getElem_mem hidx

/-- With reservations always rejected and a positive quota, the loop tries
every single candidate before giving up. -/
lemma date_loop_attempts_reserve_none (env : Env) (vpd : Nat)
    (hr : ∀ n, env.reserveResp n = none) (hv : 0 < vpd) :
    ∀ (fuel : Nat) (tc : List TimeRec) (st : RunState), tc.length = fuel →
      (date_loop env vpd fuel 0 tc st).2.2.totalAttempts = st.totalAttempts + fuel := by
  intro fuel
  induction fuel with
  | zero => intro tc st hlen; rfl
  | succ n ih =>
    intro tc st hlen
    have htc : tc ≠ [] := by
      intro hcon
      rw [hcon] at hlen
      simp at hlen
    have hmem := choice_mem tc (env.pick st.totalAttempts) htc
    have herase : (tc.erase ((tc.get? (env.pick st.totalAttempts % tc.length)).getD ⟨""⟩)).length = n := by
      have := List.length_erase_add_one hmem
      omega
    rw [date_loop, if_pos ⟨hv, htc⟩, hr st.totalAttempts]
    dsimp only
    rw [ih _ _ herase]
    dsimp only
    omega

/-- The cross-date loop on a date with no available times only records the
date as last processed. -/
lemma dates_loop_cons_empty {env : Env} {vpd : Nat} {date : String}
    {rest : List String} {st : RunState} {lp : Option String}
    {dr : List (String × Nat)} (h : (env.times date).isEmpty = true) :
    dates_loop env vpd (date :: rest) st lp dr =
      dates_loop env vpd rest st (some date) dr := by
  simp [dates_loop, h]

/-- The cross-date loop breaks on the first date with a confirmed success. -/
lemma dates_loop_cons_success {env : Env} {vpd : Nat} {date : String}
    {rest : List String} {st : RunState} {lp : Option String}
    {dr : List (String × Nat)} (h : (env.times date).isEmpty = false)
    (hpos : 0 < (date_loop env vpd (env.times date).length 0 (env.times date) st).1) :
    dates_loop env vpd (date :: rest) st lp dr =
      ((date_loop env vpd (env.times date).length 0 (env.times date) st).2.2,
        some date,
        dr ++ [(date, (date_loop env vpd (env.times date).length 0 (env.times date) st).1)]) := by
  simp [dates_loop, h, hpos]

/-- The cross-date loop on a date without a success advances to the next
date. -/
lemma dates_loop_cons_zero {env : Env} {vpd : Nat} {date : String}
    {rest : List String} {st : RunState} {lp : Option String}
    {dr : List (String × Nat)} (h : (env.times date).isEmpty = false)
    (hz : (date_loop env vpd (env.times date).length 0 (env.times date) st).1 = 0) :
    dates_loop env vpd (date :: rest) st lp dr =
      dates_loop env vpd rest
        (date_loop env vpd (env.times date).length 0 (env.times date) st).2.2
        (if (date_loop env vpd (env.times date).length 0 (env.times date) st).2.1.isEmpty
          then some date else lp)
        (dr ++ [(date, 0)]) := by
  simp [dates_loop, h, hz]

/-- With reservations always rejected, the whole cross-date loop confirms
nothing and records only zero-success dates. -/
lemma dates_loop_reserve_none (env : Env) (vpd : Nat)
    (hr : ∀ n, env.reserveResp n = none) :
    ∀ (ds : List String) (st : RunState) (lp : Option String)
      (dr : List (String × Nat)),
      (dates_loop env vpd ds st lp dr).1.totalSuccesses = st.totalSuccesses ∧
      (dates_loop env vpd ds st lp dr).1.matchCalls = st.matchCalls ∧
      (dates_loop env vpd ds st lp dr).1.confirmCalls = st.confirmCalls ∧
      ∀ p ∈ (dates_loop env vpd ds st lp dr).2.2, p ∈ dr ∨ p.2 = 0 := by
  intro ds
  induction ds with
  | nil => intro st lp dr; exact ⟨rfl, rfl, rfl, fun p hp => Or.inl hp⟩
  | cons date rest ih =>
    intro st lp dr
    cases hemp : (env.times date).isEmpty with
    | true =>
      rw [dates_loop_cons_empty hemp]
      exact ih st (some date) dr
    | false =>
      have hdl := date_loop_reserve_none env vpd hr (env.times date).length 0 (env.times date) st
      rw [dates_loop_cons_zero hemp hdl.1]
      obtain ⟨h1, h2, h3, h4⟩ := ih
        (date_loop env vpd (env.times date).length 0 (env.times date) st).2.2
        (if (date_loop env vpd (env.times date).length 0 (env.times date) st).2.1.isEmpty
          then some date else lp)
        (dr ++ [(date, 0)])
      refine ⟨by rw [h1, hdl.2.1], by rw [h2, hdl.2.2.1], by rw [h3, hdl.2.2.2], ?_⟩
      intro p hp
      rcases h4 p hp with hin | hzz
      · rcases List.mem_append.mp hin with hin2 | hin2
        · exact Or.inl hin2
        · right
          have : p = (date, 0) := by simpa using hin2
          rw [this]
      · exact Or.inr hzz

/-- With reservations always rejected and a positive quota, the loop burns
one attempt per available time of every available date. -/
lemma dates_loop_attempts_reserve_none (env : Env) (vpd : Nat)
    (hr : ∀ n, env.reserveResp n = none) (hv : 0 < vpd) :
    ∀ (ds : List String) (st : RunState) (lp : Option String)
      (dr : List (String × Nat)),
      (dates_loop env vpd ds st lp dr).1.totalAttempts =
        st.totalAttempts + (ds.map (fun d => (env.times d).length)).sum := by
  intro ds
  induction ds with
  | nil => intro st lp dr; simp [dates_loop]
  | cons date rest ih =>
    intro st lp dr
    cases hemp : (env.times date).isEmpty with
    | true =>
      rw [dates_loop_cons_empty hemp, ih]
      have : (env.times date).length = 0 := by
        rw [List.isEmpty_iff] at hemp
        simp [hemp]
      simp [this]
    | false =>
      have hdl := date_loop_reserve_none env vpd hr (env.times date).length 0 (env.times date) st
      have hat := date_loop_attempts_reserve_none env vpd hr hv
        (env.times date).length (env.times date) st rfl
      rw [dates_loop_cons_zero hemp hdl.1, ih, hat]
      simp [Nat.add_assoc]

/-- If the cross-date loop produced any success, it stopped at the single
success date: that date is recorded last with a positive count, every other
new record has count zero, the date had a nonempty times list, and it is
the final `last_processed_date`. -/
lemma dates_loop_success (env : Env) (vpd : Nat) :
    ∀ (ds : List String) (st : RunState) (lp : Option String)
      (dr : List (String × Nat)),
      st.totalSuccesses < (dates_loop env vpd ds st lp dr).1.totalSuccesses →
      ∃ d n pre,
        0 < n ∧
        (dates_loop env vpd ds st lp dr).2.1 = some d ∧
        env.times d ≠ [] ∧ d ∈ ds ∧
        (dates_loop env vpd ds st lp dr).2.2 = dr ++ pre ++ [(d, n)] ∧
        ∀ p ∈ pre, p.2 = 0 := by
  intro ds
  induction ds with
  | nil =>
    intro st lp dr h
    exact absurd h (lt_irrefl _)
  | cons date rest ih =>
    intro st lp dr h
    cases hemp : (env.times date).isEmpty with
    | true =>
      rw [dates_loop_cons_empty hemp] at h ⊢
      obtain ⟨d, n, pre, hn, hlp, ht, hm, hdr, hpre⟩ := ih st (some date) dr h
      exact ⟨d, n, pre, hn, hlp, ht, List.mem_cons_of_mem _ hm, hdr, hpre⟩
    | false =>
      have hne : env.times date ≠ [] := by
        intro hcon
        rw [hcon] at hemp
        simp at hemp
      rcases Nat.eq_zero_or_pos
        (date_loop env vpd (env.times date).length 0 (env.times date) st).1 with hz | hpos
      · obtain ⟨k, hk1, hk2⟩ :=
          date_loop_spec env vpd (env.times date).length 0 (env.times date) st
        have hk0 : k = 0 := by omega
        have hts : (date_loop env vpd (env.times date).length 0
            (env.times date) st).2.2.totalSuccesses = st.totalSuccesses := by
          omega
        rw [dates_loop_cons_zero hemp hz] at h ⊢
        rw [← hts] at h
        obtain ⟨d, n, pre, hn, hlp, ht, hm, hdr, hpre⟩ := ih _ _ _ h
        refine ⟨d, n, (date, 0) :: pre, hn, hlp, ht, List.mem_cons_of_mem _ hm, ?_, ?_⟩
        · rw [hdr]
          simp
        · intro p hp
          rcases List.mem_cons.mp hp with hp1 | hp2
          · rw [hp1]
          · exact hpre p hp2
      · rw [dates_loop_cons_success hemp hpos]
        exact ⟨date, _, [], hpos, rfl, hne, List.mem_cons_self _ _, by simp, by simp⟩

/-- Every per-date record the cross-date loop appends respects the quota. -/
lemma dates_loop_dr_bound (env : Env) (vpd : Nat) :
    ∀ (ds : List String) (st : RunState) (lp : Option String)
      (dr : List (String × Nat)),
      (∀ p ∈ dr, p.2 ≤ vpd) →
      ∀ p ∈ (dates_loop env vpd ds st lp dr).2.2, p.2 ≤ vpd := by
  intro ds
  induction ds with
  | nil => intro st lp dr h; exact h
  | cons date rest ih =>
    intro st lp dr h
    cases hemp : (env.times date).isEmpty with
    | true =>
      rw [dates_loop_cons_empty hemp]
      exact ih st (some date) dr h
    | false =>
      have hle := date_loop_succ_le env vpd (env.times date).length 0 (env.times date) st
        (Nat.zero_le vpd)
      have hext : ∀ p ∈ dr ++
          [(date, (date_loop env vpd (env.times date).length 0 (env.times date) st).1)],
          p.2 ≤ vpd := by
        intro p hp
        rcases List.mem_append.mp hp with hp1 | hp2
        · exact h p hp1
        · have : p = (date, (date_loop env vpd (env.times date).length 0
              (env.times date) st).1) := by simpa using hp2
          rw [this]
          exact hle
      rcases Nat.eq_zero_or_pos
        (date_loop env vpd (env.times date).length 0 (env.times date) st).1 with hz | hpos
      · rw [dates_loop_cons_zero hemp hz]
        refine ih _ _ _ ?_
        intro p hp
        rcases List.mem_append.mp hp with hp1 | hp2
        · exact h p hp1
        · have : p = (date, 0) := by simpa using hp2
          rw [this]
          exact Nat.zero_le vpd
      · rw [dates_loop_cons_success hemp hpos]
        exact hext

/-- The reset cross-date loop skips a date with no times. -/
lemma reset_dates_loop_cons_empty {env : Env} {vpd : Nat} {date : String}
    {rest : List String} {st : RunState} {dr : List (String × Nat)}
    (h : (env.times date).isEmpty = true) :
    reset_dates_loop env vpd (date :: rest) st dr =
      reset_dates_loop env vpd rest st dr := by
  simp [reset_dates_loop, h]

/-- The reset cross-date loop processes a date with times and continues
regardless of the outcome. -/
lemma reset_dates_loop_cons_ne {env : Env} {vpd : Nat} {date : String}
    {rest : List String} {st : RunState} {dr : List (String × Nat)}
    (h : (env.times date).isEmpty = false) :
    reset_dates_loop env vpd (date :: rest) st dr =
      reset_dates_loop env vpd rest
        (date_loop env vpd (env.times date).length 0 (env.times date) st).2.2
        (dr ++ [(date, (date_loop env vpd (env.times date).length 0 (env.times date) st).1)]) := by
  simp [reset_dates_loop, h]

/-- Every per-date record the reset loop appends respects the quota. -/
lemma reset_dates_loop_dr_bound (env : Env) (vpd : Nat) :
    ∀ (ds : List String) (st : RunState) (dr : List (String × Nat)),
      (∀ p ∈ dr, p.2 ≤ vpd) →
      ∀ p ∈ (reset_dates_loop env vpd ds st dr).2, p.2 ≤ vpd := by
  intro ds
  induction ds with
  | nil => intro st dr h; exact h
  | cons date rest ih =>
    intro st dr h
    cases hemp : (env.times date).isEmpty with
    | true =>
      rw [reset_dates_loop_cons_empty hemp]
      exact ih st dr h
    | false =>
      rw [reset_dates_loop_cons_ne hemp]
      refine ih _ _ ?_
      intro p hp
      rcases List.mem_append.mp hp with hp1 | hp2
      · exact h p hp1
      · have : p = (date, (date_loop env vpd (env.times date).length 0
            (env.times date) st).1) := by simpa using hp2
        rw [this]
        exact date_loop_succ_le env vpd (env.times date).length 0 (env.times date) st
          (Nat.zero_le vpd)

/-- `commit_watermark` reports the loop's counters unchanged. -/
lemma commit_watermark_st (r : RunState × Option String × List (String × Nat)) :
    (commit_watermark r).st = r.1 := by
  rcases r with ⟨st, lp, dr⟩
  cases lp with
  | none => rfl
  | some d =>
    by_cases h : 0 < st.totalSuccesses ∧ d ≠ "" <;> simp [commit_watermark, h]

/-- `commit_watermark` reports the loop's per-date records unchanged. -/
lemma commit_watermark_dr (r : RunState × Option String × List (String × Nat)) :
    (commit_watermark r).date_results = r.2.2 := by
  rcases r with ⟨st, lp, dr⟩
  cases lp with
  | none => rfl
  | some d =>
    by_cases h : 0 < st.totalSuccesses ∧ d ≠ "" <;> simp [commit_watermark, h]

/-- Without a confirmed success the watermark is not written. -/
lemma commit_watermark_zero {r : RunState × Option String × List (String × Nat)}
    (h : r.1.totalSuccesses = 0) :
    commit_watermark r = ⟨false, none, r.1, r.2.2⟩ := by
  rcases r with ⟨st, lp, dr⟩
  dsimp only at h
  cases lp with
  | none => rfl
  | some d => simp [commit_watermark, h]

/-- A written watermark comes from the final `last_processed_date`, with a
success recorded and a truthy (nonempty) date. -/
lemma commit_watermark_update {r : RunState × Option String × List (String × Nat)}
    {d : String} (h : (commit_watermark r).watermark_update = some d) :
    r.2.1 = some d ∧ 0 < r.1.totalSuccesses ∧ d ≠ "" := by
  rcases r with ⟨st, lp, dr⟩
  cases lp with
  | none => simp [commit_watermark] at h
  | some d' =>
    by_cases hc : 0 < st.totalSuccesses ∧ d' ≠ ""
    · simp only [commit_watermark, if_pos hc] at h
      obtain rfl : d' = d := by simpa using h
      exact ⟨rfl, hc.1, hc.2⟩
    · simp [commit_watermark, hc] at h

/-- `register_visit` when service details cannot be fetched. -/
lemma register_visit_none_details {env : Env} {entry : ServiceEntry}
    (h : env.serviceDetails = none) :
    register_visit env entry = ⟨false, none, RunState.init, []⟩ := by
  simp [register_visit, h]

/-- `register_visit` when no dates pass the watermark filter. -/
lemma register_visit_no_dates {env : Env} {entry : ServiceEntry} {dd : Nat × Nat}
    (h : env.serviceDetails = some dd)
    (hav : (find_next_dates env.apiDates entry.last_registered_date).isEmpty = true) :
    register_visit env entry = ⟨false, none, RunState.init, []⟩ := by
  simp [register_visit, h, hav]

/-- `register_visit` on the main path runs the cross-date loop and commits. -/
lemma register_visit_run {env : Env} {entry : ServiceEntry} {dd : Nat × Nat}
    (h : env.serviceDetails = some dd)
    (hav : (find_next_dates env.apiDates entry.last_registered_date).isEmpty = false) :
    register_visit env entry =
      commit_watermark (dates_loop env entry.visits_per_day
        (find_next_dates env.apiDates entry.last_registered_date) RunState.init none []) := by
  simp [register_visit, h, hav]

/-- `register_visit_from_date` when service details cannot be fetched. -/
lemma register_visit_from_date_none_details {env : Env} {entry : ServiceEntry}
    {start_date : String} {mfd : Nat} (h : env.serviceDetails = none) :
    register_visit_from_date env entry start_date mfd = ⟨false, RunState.init, []⟩ := by
  simp [register_visit_from_date, h]

/-- `register_visit_from_date` when the window holds no dates. -/
lemma register_visit_from_date_no_dates {env : Env} {entry : ServiceEntry}
    {start_date : String} {mfd : Nat} {dd : Nat × Nat}
    (h : env.serviceDetails = some dd)
    (hav : (find_dates_from_date env.apiDates start_date mfd env.today).isEmpty = true) :
    register_visit_from_date env entry start_date mfd = ⟨false, RunState.init, []⟩ := by
  simp [register_visit_from_date, h, hav]

/-- `register_visit_from_date` on the main path. -/
lemma register_visit_from_date_run {env : Env} {entry : ServiceEntry}
    {start_date : String} {mfd : Nat} {dd : Nat × Nat}
    (h : env.serviceDetails = some dd)
    (hav : (find_dates_from_date env.apiDates start_date mfd env.today).isEmpty = false) :
    register_visit_from_date env entry start_date mfd =
      ⟨decide (0 < (reset_dates_loop env entry.visits_per_day
          (find_dates_from_date env.apiDates start_date mfd env.today)
          RunState.init []).1.totalSuccesses),
        (reset_dates_loop env entry.visits_per_day
          (find_dates_from_date env.apiDates start_date mfd env.today)
          RunState.init []).1,
        (reset_dates_loop env entry.visits_per_day
          (find_dates_from_date env.apiDates start_date mfd env.today)
          RunState.init []).2⟩ := by
  simp [register_visit_from_date, h, hav]

/-- Claim C1: when `register_visit` writes the watermark (at most once per
run by construction), some reservation was confirmed in the run, the value
written is the unique — hence latest — date with a confirmed reservation,
and that date's times query returned a nonempty list. -/
theorem register_visit_c1 (env : Env) (entry : ServiceEntry) (d : String)
    (h : (register_visit env entry).watermark_update = some d) :
    0 < (register_visit env entry).st.totalSuccesses ∧
    (∃ n, 0 < n ∧ (d, n) ∈ (register_visit env entry).date_results) ∧
    (∀ p ∈ (register_visit env entry).date_results, 0 < p.2 → p.1 = d) ∧
    env.times d ≠ [] := by
  cases hsd : env.serviceDetails with
  | none =>
    rw [register_visit_none_details hsd] at h
    simp at h
  | some dd =>
    cases hav : (find_next_dates env.apiDates entry.last_registered_date).isEmpty with
    | true =>
      rw [register_visit_no_dates hsd hav] at h
      simp at h
    | false =>
      rw [register_visit_run hsd hav] at h ⊢
      obtain ⟨hlp, hpos, hne⟩ := commit_watermark_update h
      rw [commit_watermark_st, commit_watermark_dr]
      obtain ⟨d0, n, pre, hn, hlp0, ht, hm, hdr, hpre⟩ :=
        dates_loop_success env entry.visits_per_day
          (find_next_dates env.apiDates entry.last_registered_date)
          RunState.init none [] hpos
      have hd0 : d0 = d := by
        rw [hlp0] at hlp
        exact Option.some.inj hlp
      subst hd0
      refine ⟨hpos, ⟨n, hn, ?_⟩, ?_, ht⟩
      · rw [hdr]
        simp
      · intro p hp hppos
        rw [hdr] at hp
        rcases List.mem_append.mp hp with hp1 | hp2
        · rcases List.mem_append.mp hp1 with hp3 | hp4
          · simp at hp3
          · have := hpre p hp4
            omega
        · have hpd : p = (d0, n) := by simpa using hp2
          rw [hpd]

/-- Witness for C1 on the concrete success environment. -/
theorem register_visit_c1_witness :
    0 < (register_visit env_demo entry_demo).st.totalSuccesses ∧
    (∃ n, 0 < n ∧ ("2024-03-05", n) ∈ (register_visit env_demo entry_demo).date_results) ∧
    (∀ p ∈ (register_visit env_demo entry_demo).date_results, 0 < p.2 → p.1 = "2024-03-05") ∧
    env_demo.times "2024-03-05" ≠ [] :=
  register_visit_c1 env_demo entry_demo "2024-03-05" (by decide)

/-- Claim C2: a watermark write from `register_visit` strictly exceeds the
stored watermark (lexicographically), so the stored value never regresses:
it is untouched when no write happens, strictly larger when one does. -/
theorem register_visit_c2 (env : Env) (entry : ServiceEntry) (w d : String)
    (hw : entry.last_registered_date = some w)
    (h : (register_visit env entry).watermark_update = some d) :
    w < d := by
  cases hsd : env.serviceDetails with
  | none =>
    rw [register_visit_none_details hsd] at h
    simp at h
  | some dd =>
    cases hav : (find_next_dates env.apiDates entry.last_registered_date).isEmpty with
    | true =>
      rw [register_visit_no_dates hsd hav] at h
      simp at h
    | false =>
      rw [register_visit_run hsd hav] at h
      obtain ⟨hlp, hpos, hne⟩ := commit_watermark_update h
      obtain ⟨d0, n, pre, hn, hlp0, ht, hm, hdr, hpre⟩ :=
        dates_loop_success env entry.visits_per_day
          (find_next_dates env.apiDates entry.last_registered_date)
          RunState.init none [] hpos
      have hd0 : d0 = d := by
        rw [hlp0] at hlp
        exact Option.some.inj hlp
      subst hd0
      have hkeep := keep_of_mem_find_next_dates hm
      rw [hw] at hkeep
      by_cases hw0 : w = ""
      · subst hw0
        exact empty_string_lt hne
      · simp only [keep_date, if_neg hw0] at hkeep
        exact (strLt_iff w d0).mp hkeep

/-- Witness for C2 on the concrete success environment. -/
theorem register_visit_c2_witness : ("2024-03-01" : String) < "2024-03-05" :=
  register_visit_c2 env_demo entry_demo "2024-03-01" "2024-03-05" rfl (by decide)

/-- Claim C7: in both the incremental and the reset per-date loops, the
number of reservations confirmed for a processed date never exceeds
`visits_per_day`. -/
theorem register_visit_c7 (env : Env) (entry : ServiceEntry) :
    (∀ p ∈ (register_visit env entry).date_results, p.2 ≤ entry.visits_per_day) ∧
    ∀ (start_date : String) (max_future_days : Nat),
      ∀ p ∈ (register_visit_from_date env entry start_date max_future_days).date_results,
        p.2 ≤ entry.visits_per_day := by
  constructor
  · cases hsd : env.serviceDetails with
    | none =>
      rw [register_visit_none_details hsd]
      intro p hp
      simp at hp
    | some dd =>
      cases hav : (find_next_dates env.apiDates entry.last_registered_date).isEmpty with
      | true =>
        rw [register_visit_no_dates hsd hav]
        intro p hp
        simp at hp
      | false =>
        rw [register_visit_run hsd hav, commit_watermark_dr]
        exact dates_loop_dr_bound env entry.visits_per_day _ RunState.init none []
          (fun p hp => by simp at hp)
  · intro start_date max_future_days
    cases hsd : env.serviceDetails with
    | none =>
      rw [register_visit_from_date_none_details hsd]
      intro p hp
      simp at hp
    | some dd =>
      cases hav : (find_dates_from_date env.apiDates start_date max_future_days
          env.today).isEmpty with
      | true =>
        rw [register_visit_from_date_no_dates hsd hav]
        intro p hp
        simp at hp
      | false =>
        rw [register_visit_from_date_run hsd hav]
        exact reset_dates_loop_dr_bound env entry.visits_per_day _ RunState.init []
          (fun p hp => by simp at hp)

/-- Witness for C7: the confirmed count of the concrete processed date stays
within the quota. -/
theorem register_visit_c7_witness :
    (("2024-03-05", 1) : String × Nat).2 ≤ entry_demo.visits_per_day :=
  (register_visit_c7 env_demo entry_demo).1 ("2024-03-05", 1) (by decide)

/-- Claim C8: when no reserve call ever yields an id, `register_visit` makes
zero matchCustomer and zero confirm calls, reports no success, leaves the
watermark unwritten, records no confirmed reservation — and still advances
through every candidate slot of every available date (one reserve attempt
per time). -/
theorem register_visit_c8 (env : Env) (entry : ServiceEntry)
    (hr : ∀ n, env.reserveResp n = none) :
    (register_visit env entry).st.matchCalls = 0 ∧
    (register_visit env entry).st.confirmCalls = 0 ∧
    (register_visit env entry).success = false ∧
    (register_visit env entry).watermark_update = none ∧
    (∀ p ∈ (register_visit env entry).date_results, p.2 = 0) ∧
    (env.serviceDetails.isSome → 0 < entry.visits_per_day →
      (register_visit env entry).st.totalAttempts =
        ((find_next_dates env.apiDates entry.last_registered_date).map
          (fun d => (env.times d).length)).sum) := by
  cases hsd : env.serviceDetails with
  | none =>
    rw [register_visit_none_details hsd]
    refine ⟨rfl, rfl, rfl, rfl, ?_, ?_⟩
    · intro p hp
      simp at hp
    · intro hs
      simp at hs
  | some dd =>
    cases hav : (find_next_dates env.apiDates entry.last_registered_date).isEmpty with
    | true =>
      rw [register_visit_no_dates hsd hav]
      refine ⟨rfl, rfl, rfl, rfl, ?_, ?_⟩
      · intro p hp
        simp at hp
      · intro _ _
        rw [List.isEmpty_iff.mp hav]
        rfl
    | false =>
      rw [register_visit_run hsd hav]
      have hd := dates_loop_reserve_none env entry.visits_per_day hr
        (find_next_dates env.apiDates entry.last_registered_date) RunState.init none []
      rw [commit_watermark_zero hd.1]
      refine ⟨hd.2.1, hd.2.2.1, rfl, rfl, ?_, ?_⟩
      · intro p hp
        rcases hd.2.2.2 p hp with hin | hz
        · simp at hin
        · exact hz
      · intro _ hv
        simpa [RunState.init] using
          dates_loop_attempts_reserve_none env entry.visits_per_day hr hv
            (find_next_dates env.apiDates entry.last_registered_date) RunState.init none []

/-- Witness for C8 on the all-rejected environment: no downstream calls, no
success, no watermark, and exactly one attempt for the one candidate. -/
theorem register_visit_c8_witness :
    (register_visit env_reject entry_demo).st.matchCalls = 0 ∧
    (register_visit env_reject entry_demo).success = false ∧
    (register_visit env_reject entry_demo).watermark_update = none ∧
    (register_visit env_reject entry_demo).st.totalAttempts =
      ((find_next_dates env_reject.apiDates entry_demo.last_registered_date).map
        (fun d => (env_reject.times d).length)).sum := by
  have h := register_visit_c8 env_reject entry_demo (fun n => rfl)
  exact ⟨h.1, h.2.2.1, h.2.2.2.1, h.2.2.2.2.2 rfl (by decide)⟩

/-- Per-service reset sweeps ignore the stored watermarks entirely. -/
lemma reset_cycle_services_erase (envOf : Nat → Env) (start_date : String)
    (max_future_days : Nat) :
    ∀ (l : List ServiceData) (idx tot suc : Nat),
      reset_cycle_services envOf start_date max_future_days
        (l.map (fun s => { s with last_registered_date := none })) idx tot suc =
      reset_cycle_services envOf start_date max_future_days l idx tot suc := by
  intro l
  induction l with
  | nil => intro idx tot suc; rfl
  | cons s rest ih =>
    intro idx tot suc
    simp only [List.map_cons, reset_cycle_services]
    have he : reset_entry_of { s with last_registered_date := none } = reset_entry_of s := rfl
    rw [he, ih]

/-- Per-channel reset sweeps ignore the stored watermarks entirely. -/
lemma reset_cycle_channels_erase (envOf : Nat → Env) (start_date : String)
    (max_future_days : Nat) :
    ∀ (chs : List Channel) (idx tot suc : Nat),
      reset_cycle_channels envOf start_date max_future_days
        (chs.map (fun ch =>
          { ch with services := ch.services.map (fun s => { s with last_registered_date := none }) }))
        idx tot suc =
      reset_cycle_channels envOf start_date max_future_days chs idx tot suc := by
  intro chs
  induction chs with
  | nil => intro idx tot suc; rfl
  | cons ch rest ih =>
    intro idx tot suc
    simp only [List.map_cons, reset_cycle_channels]
    rw [reset_cycle_services_erase, ih]

/-- Claim C3: a reset cycle never writes the watermark — the persisted
channel configuration after the run is identical to the one before it — and
its outcome does not even depend on the stored watermarks, since every
`ServiceEntry` it builds has the watermark forced to null. -/
theorem run_reset_cycle_c3 (enabled : Bool) (envOf : Nat → Env)
    (start_date : String) (max_future_days : Nat) (channels : List Channel) :
    (run_reset_cycle_for_all_services enabled envOf start_date max_future_days channels).1 =
      channels ∧
    (run_reset_cycle_for_all_services enabled envOf start_date max_future_days channels).2 =
      (run_reset_cycle_for_all_services enabled envOf start_date max_future_days
        (erase_watermarks channels)).2 := by
  constructor
  · cases enabled <;> simp [run_reset_cycle_for_all_services]
  · cases enabled with
    | false => rfl
    | true =>
      simp only [run_reset_cycle_for_all_services, if_true, erase_watermarks]
      rw [reset_cycle_channels_erase]

end AppointmentBot
